import Mathlib

/-!
Verification of the ramen shared-memory ring buffer (src/ringbuf/ringbuf.h) and
the rmadmin tuple codec (rmadmin/serValue.cpp).

The ring-buffer header file defines the persistent channel state
(`struct ringbuf_file`), the pure cursor-arithmetic functions
(`ringbuf_file_num_entries`, `ringbuf_file_num_free`) and the combined
`ringbuf_enqueue` / `ringbuf_dequeue` operations, which are translated here.
The bodies of `ringbuf_enqueue_alloc`, `ringbuf_enqueue_commit`,
`ringbuf_dequeue_alloc`, `ringbuf_dequeue_commit` and `ringbuf_create` are
declared `extern` in ringbuf.h and their implementation file is not among the
available sources; those are modelled from the specification (see the doc
comment of each such definition).

Words of the channel are `uint32_t`; they are modelled as `Nat` holding values
below `2 ^ 32`.  Cursors are `uint32_t` indexes kept below the capacity
`num_words`; under that invariant (stated as a hypothesis of every theorem that
needs it) every C expression below stays within `uint32_t` range, so plain
`Nat` arithmetic coincides with the C arithmetic.  Record sizes are counted in
words (the C `ringbuf_dequeue` counts bytes, a fixed factor of 4).
-/

/-- Word memory of the channel, indexed modulo the capacity `N`.  Writes one
word `w` at position `pos % N` (model of a store into `rbf->data`). -/
def writeWord (N : Nat) (d : Nat → Nat) (pos w : Nat) : Nat → Nat :=
  fun i => if i = pos % N then w else d i

/-- Copies the list `ws` word by word into the circular word array starting at
`pos` (model of the `memcpy` into `rbf->data + tx.record_start`). -/
def writeWords (N : Nat) (d : Nat → Nat) (pos : Nat) : List Nat → (Nat → Nat)
  | [] => d
  | w :: ws => writeWords N (writeWord N d pos w) (pos + 1) ws

/-- Reads `n` consecutive words of the circular word array starting at `pos`
(model of the `memcpy` out of `rbf->data + tx.record_start`). -/
def readWords (N : Nat) (d : Nat → Nat) : Nat → Nat → List Nat
  | _, 0 => []
  | pos, n + 1 => d (pos % N) :: readWords N d (pos + 1) n

/-- The mmapped channel state, from `struct ringbuf_file` (ringbuf.h).
`version`, `first_seq`, the lock word and the floating-point statistics
`tmin` / `tmax` / `timeout` are omitted: no claim concerns them. -/
structure ringbuf_file where
  num_words : Nat
  wrap : Bool
  prod_head : Nat
  prod_tail : Nat
  cons_head : Nat
  cons_tail : Nat
  num_allocs : Nat
  data : Nat → Nat

/-- Error codes, from `enum ringbuf_error` (ringbuf.h). -/
inductive ringbuf_error where
  | RB_OK
  | RB_ERR_NO_MORE_ROOM
  | RB_ERR_FAILURE
  | RB_ERR_BAD_VERSION
  deriving DecidableEq, Repr

/-- Number of words currently stored in the ring buffer, translated from
`ringbuf_file_num_entries` (ringbuf.h lines 195-199). -/
def ringbuf_file_num_entries (rbf : ringbuf_file) (prod_tail cons_head : Nat) : Nat :=
  if prod_tail ≥ cons_head then prod_tail - cons_head
  else (prod_tail + rbf.num_words) - cons_head

/-- Number of words free, translated from `ringbuf_file_num_free`
(ringbuf.h lines 202-206). -/
def ringbuf_file_num_free (rbf : ringbuf_file) (cons_tail prod_head : Nat) : Nat :=
  if cons_tail > prod_head then cons_tail - prod_head - 1
  else (cons_tail + rbf.num_words) - prod_head - 1

/-- A reserved-but-uncommitted transaction, from `struct ringbuf_tx`
(ringbuf.h lines 208-215). -/
structure ringbuf_tx where
  record_start : Nat
  next : Nat
  seen : Nat
  deriving DecidableEq, Repr

/-- Claim C5: with all cursors below the capacity, the channel is empty
(`ringbuf_file_num_entries` returns 0) iff producer-tail equals consumer-head,
it is full (`ringbuf_file_num_free` returns 0) iff producer-head is congruent
to consumer-tail − 1 modulo the capacity, and a ring of capacity `N` holds at
most `N − 1` words of data. -/
theorem ringbuf_empty_full_characterization
    (rbf : ringbuf_file) (prod_tail cons_head cons_tail prod_head : Nat)
    (hpt : prod_tail < rbf.num_words) (hch : cons_head < rbf.num_words)
    (hct : cons_tail < rbf.num_words) (hph : prod_head < rbf.num_words) :
    (ringbuf_file_num_entries rbf prod_tail cons_head = 0 ↔ prod_tail = cons_head) ∧
    (ringbuf_file_num_free rbf cons_tail prod_head = 0 ↔
      prod_head = (cons_tail + rbf.num_words - 1) % rbf.num_words) ∧
    ringbuf_file_num_entries rbf prod_tail cons_head ≤ rbf.num_words - 1 := by
  have hN : 0 < rbf.num_words := Nat.lt_of_le_of_lt (Nat.zero_le _) hpt
  have hmod : (cons_tail + rbf.num_words - 1) % rbf.num_words =
      if cons_tail = 0 then rbf.num_words - 1 else cons_tail - 1 := by
    rcases Nat.eq_zero_or_pos cons_tail with h0 | h0
    · subst h0
      simp [Nat.mod_eq_of_lt (by omega : rbf.num_words - 1 < rbf.num_words)]
    · have h1 : cons_tail + rbf.num_words - 1 = (cons_tail - 1) + rbf.num_words := by omega
      rw [h1, Nat.add_mod_right, Nat.mod_eq_of_lt (by omega), if_neg (by omega)]
  unfold ringbuf_file_num_entries ringbuf_file_num_free
  rw [hmod]
  split_ifs <;> omega

/-- A concrete channel state used as witness input below. -/
def c5state : ringbuf_file :=
  { num_words := 8, wrap := false, prod_head := 7, prod_tail := 3,
    cons_head := 3, cons_tail := 0, num_allocs := 0, data := fun _ => 0 }

/-- Witness for `ringbuf_empty_full_characterization` at a concrete state. -/
theorem ringbuf_empty_full_characterization_witness :
    (ringbuf_file_num_entries c5state 3 3 = 0 ↔ (3 : Nat) = 3) ∧
    (ringbuf_file_num_free c5state 0 7 = 0 ↔
      (7 : Nat) = (0 + c5state.num_words - 1) % c5state.num_words) ∧
    ringbuf_file_num_entries c5state 3 3 ≤ c5state.num_words - 1 :=
  ringbuf_empty_full_characterization c5state
    3 3 0 7 (by decide) (by decide) (by decide) (by decide)

/-- Modelled from the spec: `ringbuf_enqueue_alloc` is declared `extern` in
ringbuf.h and its implementation file is not among the available sources.
Spec §4.1 `enqueue_reserve`: computes whether `num_words` plus the framing
overhead (one length-prefix word, spec §3 "Record") fits in the free span; for
a non-wrapping channel, returns `NoRoom` (here `none`) if it does not fit; on
success advances producer-head and returns a transaction describing the
reserved range.  The length-prefix word is written as part of the reservation.
Wrap-mode eviction is not modelled: every claim concerns non-wrapping
channels. -/
def ringbuf_enqueue_alloc (rbf : ringbuf_file) (num_words : Nat) :
    Option (ringbuf_tx × ringbuf_file) :=
  if num_words + 1 ≤ ringbuf_file_num_free rbf rbf.cons_tail rbf.prod_head then
    let tx : ringbuf_tx :=
      { record_start := (rbf.prod_head + 1) % rbf.num_words,
        next := (rbf.prod_head + 1 + num_words) % rbf.num_words,
        seen := rbf.prod_head }
    some (tx, { rbf with
                  prod_head := tx.next,
                  data := writeWord rbf.num_words rbf.data rbf.prod_head num_words })
  else none

/-- Modelled from the spec: `ringbuf_enqueue_commit` (extern in ringbuf.h,
implementation not among the sources).  Spec §4.1 `enqueue_commit`: advances
producer-tail to publish the transaction's range and updates the running
allocation count.  The floating-point time-range statistics are omitted. -/
def ringbuf_enqueue_commit (rbf : ringbuf_file) (tx : ringbuf_tx) : ringbuf_file :=
  { rbf with prod_tail := tx.next, num_allocs := rbf.num_allocs + 1 }

/-- Modelled from the spec: `ringbuf_dequeue_alloc` (extern in ringbuf.h,
implementation not among the sources).  Spec §4.1 `dequeue_reserve`: if the
channel is empty, returns `NoData` (here `none`, the C function returns −1);
otherwise reads the next record's length prefix, advances consumer-head past
the record, and returns the record size together with the transaction. -/
def ringbuf_dequeue_alloc (rbf : ringbuf_file) :
    Option (Nat × ringbuf_tx × ringbuf_file) :=
  if ringbuf_file_num_entries rbf rbf.prod_tail rbf.cons_head = 0 then none
  else
    let sz := rbf.data (rbf.cons_head % rbf.num_words)
    let tx : ringbuf_tx :=
      { record_start := (rbf.cons_head + 1) % rbf.num_words,
        next := (rbf.cons_head + 1 + sz) % rbf.num_words,
        seen := rbf.cons_head }
    some (sz, tx, { rbf with cons_head := tx.next })

/-- Modelled from the spec: `ringbuf_dequeue_commit` (extern in ringbuf.h,
implementation not among the sources).  Spec §4.1 `dequeue_commit`: advances
consumer-tail past the transaction's span, reclaiming the space. -/
def ringbuf_dequeue_commit (rbf : ringbuf_file) (tx : ringbuf_tx) : ringbuf_file :=
  { rbf with cons_tail := tx.next }

/-- Combined enqueue, translated from `ringbuf_enqueue` (ringbuf.h lines
257-275): reserve, copy the payload words in, commit.  The C function takes
the error code of the failed reservation as return value and leaves the
channel untouched in that case; state is returned alongside the code since the
C functions mutate in place.  The time-tag arguments are omitted together with
the statistics they feed. -/
def ringbuf_enqueue (rbf : ringbuf_file) (data : List Nat) (num_words : Nat) :
    ringbuf_error × ringbuf_file :=
  match ringbuf_enqueue_alloc rbf num_words with
  | none => (.RB_ERR_NO_MORE_ROOM, rbf)
  | some (tx, rbf1) =>
    let rbf2 := { rbf1 with
      data := writeWords rbf1.num_words rbf1.data tx.record_start (data.take num_words) }
    (.RB_OK, ringbuf_enqueue_commit rbf2 tx)

/-- Combined dequeue, translated from `ringbuf_dequeue` (ringbuf.h lines
277-296): reserve; if the record is larger than `max_size` print and return −1
(without copying and without committing); otherwise copy the record out and
commit.  The returned list is the content of the caller's buffer; sizes are
counted in words (the C code counts bytes, a fixed factor of 4). -/
def ringbuf_dequeue (rbf : ringbuf_file) (max_size : Nat) :
    Int × ringbuf_file × List Nat :=
  match ringbuf_dequeue_alloc rbf with
  | none => (-1, rbf, [])
  | some (sz, tx, rbf1) =>
    if max_size < sz then (-1, rbf1, [])
    else
      let out := readWords rbf1.num_words rbf1.data tx.record_start sz
      ((sz : Int), ringbuf_dequeue_commit rbf1 tx, out)

/-- Modelled from the spec: `ringbuf_create` (extern in ringbuf.h,
implementation not among the sources).  Spec §4.1 `create`: initializes the
backing file to hold the header plus `capacity_words` data words and zeroes the
cursors.  All claims concern non-wrapping channels, so `wrap := false`. -/
def freshRingbuf (N : Nat) : ringbuf_file :=
  { num_words := N, wrap := false, prod_head := 0, prod_tail := 0,
    cons_head := 0, cons_tail := 0, num_allocs := 0, data := fun _ => 0 }

/-- Channel states reachable from a freshly created channel by the reserve and
commit operations, with at most one producer-side and one consumer-side
transaction in flight (the operations acquire the channel-wide guard, spec §5,
so each cursor mutation is serialized).  Carries the pending producer and
consumer transactions, `none` when that side has nothing in flight. -/
inductive Reachable : ringbuf_file → Option ringbuf_tx → Option ringbuf_tx → Prop where
  | init (N : Nat) (h : 0 < N) : Reachable (freshRingbuf N) none none
  | enq_alloc {rbf rbf' : ringbuf_file} {pc : Option ringbuf_tx} {n : Nat}
      {tx : ringbuf_tx} :
      Reachable rbf none pc → ringbuf_enqueue_alloc rbf n = some (tx, rbf') →
      Reachable rbf' (some tx) pc
  | enq_commit {rbf : ringbuf_file} {pc : Option ringbuf_tx} {tx : ringbuf_tx} :
      Reachable rbf (some tx) pc →
      Reachable (ringbuf_enqueue_commit rbf tx) none pc
  | deq_alloc {rbf rbf' : ringbuf_file} {pp : Option ringbuf_tx} {sz : Nat}
      {tx : ringbuf_tx} :
      Reachable rbf pp none → ringbuf_dequeue_alloc rbf = some (sz, tx, rbf') →
      Reachable rbf' pp (some tx)
  | deq_commit {rbf : ringbuf_file} {pp : Option ringbuf_tx} {tx : ringbuf_tx} :
      Reachable rbf pp (some tx) →
      Reachable (ringbuf_dequeue_commit rbf tx) pp none

/-- Structural invariant of reachable channel states: positive capacity, all
cursors below the capacity, and each side's head equal to its tail exactly
when that side has no transaction in flight. -/
def RingbufInv (rbf : ringbuf_file) (pp pc : Option ringbuf_tx) : Prop :=
  0 < rbf.num_words ∧
  rbf.prod_head < rbf.num_words ∧ rbf.prod_tail < rbf.num_words ∧
  rbf.cons_head < rbf.num_words ∧ rbf.cons_tail < rbf.num_words ∧
  (pp = none → rbf.prod_head = rbf.prod_tail) ∧
  (∀ tx, pp = some tx → tx.next = rbf.prod_head) ∧
  (pc = none → rbf.cons_head = rbf.cons_tail) ∧
  (∀ tx, pc = some tx → tx.next = rbf.cons_head)

lemma reachable_inv {rbf : ringbuf_file} {pp pc : Option ringbuf_tx}
    (h : Reachable rbf pp pc) : RingbufInv rbf pp pc := by
  induction h with
  | init N hN =>
    refine ⟨hN, hN, hN, hN, hN, ?_, ?_, ?_, ?_⟩ <;> simp [freshRingbuf]
  | enq_alloc hr halloc ih =>
    obtain ⟨hN, hph, hpt, hch, hct, hpqn, hpqs, hcqn, hcqs⟩ := ih
    unfold ringbuf_enqueue_alloc at halloc
    split at halloc
    · rw [Option.some_inj] at halloc
      injection halloc with htx hst
      subst hst
      subst htx
      exact ⟨hN, Nat.mod_lt _ hN, hpt, hch, hct,
        fun h' => Option.noConfusion h', fun tx' h' => by cases h'; rfl,
        fun h' => hcqn h', hcqs⟩
    · exact absurd halloc (by simp)
  | enq_commit hr ih =>
    obtain ⟨hN, hph, hpt, hch, hct, hpqn, hpqs, hcqn, hcqs⟩ := ih
    have hnext := hpqs _ rfl
    exact ⟨hN, hph, lt_of_eq_of_lt hnext hph, hch, hct,
      fun _ => hnext.symm, fun tx' h' => Option.noConfusion h',
      fun h' => hcqn h', hcqs⟩
  | deq_alloc hr halloc ih =>
    obtain ⟨hN, hph, hpt, hch, hct, hpqn, hpqs, hcqn, hcqs⟩ := ih
    unfold ringbuf_dequeue_alloc at halloc
    split at halloc
    · exact absurd halloc (by simp)
    · rw [Option.some_inj] at halloc
      injection halloc with hsz hrest
      injection hrest with htx hst
      subst hst
      subst htx
      exact ⟨hN, hph, hpt, Nat.mod_lt _ hN, hct,
        fun h' => hpqn h', hpqs,
        fun h' => Option.noConfusion h', fun tx' h' => by cases h'; rfl⟩
  | deq_commit hr ih =>
    obtain ⟨hN, hph, hpt, hch, hct, hpqn, hpqs, hcqn, hcqs⟩ := ih
    have hnext := hcqs _ rfl
    exact ⟨hN, hph, hpt, hch, lt_of_eq_of_lt hnext hch,
      fun h' => hpqn h', hpqs, fun _ => hnext.symm,
      fun tx' h' => Option.noConfusion h'⟩

/-- Claim C4 (amended): in every reachable channel state with no transaction in
flight, `ringbuf_file_num_free (cons_tail, prod_head) +
ringbuf_file_num_entries (prod_tail, cons_head) + 1` equals the capacity.
With a reservation in flight the reserved words are counted by neither side
and the sum falls short (see `ringbuf_identity_counterexample`). -/
theorem ringbuf_identity_quiescent (rbf : ringbuf_file)
    (h : Reachable rbf none none) :
    ringbuf_file_num_free rbf rbf.cons_tail rbf.prod_head
      + ringbuf_file_num_entries rbf rbf.prod_tail rbf.cons_head + 1
      = rbf.num_words := by
  obtain ⟨hN, hph, hpt, hch, hct, hpqn, _, hcqn, _⟩ := reachable_inv h
  have h1 := hpqn rfl
  have h2 := hcqn rfl
  unfold ringbuf_file_num_free ringbuf_file_num_entries
  split_ifs <;> omega

/-- Witness for `ringbuf_identity_quiescent` at a freshly created channel. -/
theorem ringbuf_identity_quiescent_witness :
    ringbuf_file_num_free (freshRingbuf 8) (freshRingbuf 8).cons_tail
        (freshRingbuf 8).prod_head
      + ringbuf_file_num_entries (freshRingbuf 8) (freshRingbuf 8).prod_tail
        (freshRingbuf 8).cons_head + 1
      = (freshRingbuf 8).num_words :=
  ringbuf_identity_quiescent (freshRingbuf 8) (Reachable.init 8 (by decide))

/-- A concrete reachable state (capacity 8, one uncommitted 2-word enqueue
reservation) used to refute the unrestricted cursor identity of claim C4. -/
def c4state : ringbuf_file :=
  { num_words := 8, wrap := false, prod_head := 3, prod_tail := 0,
    cons_head := 0, cons_tail := 0, num_allocs := 0,
    data := fun i => if i = 0 then 2 else 0 }

/-- The pending transaction of `c4state`. -/
def c4tx : ringbuf_tx := { record_start := 1, next := 3, seen := 0 }

/-- Claim C4, counterexample: `c4state` is reachable (a 2-word enqueue was
reserved on a fresh capacity-8 channel and not yet committed), yet
free + used + 1 = 5 ≠ 8: the identity fails in reachable states with a
transaction in flight. -/
theorem ringbuf_identity_counterexample :
    Reachable c4state (some c4tx) none ∧
    ringbuf_file_num_free c4state c4state.cons_tail c4state.prod_head
      + ringbuf_file_num_entries c4state c4state.prod_tail c4state.cons_head + 1
      ≠ c4state.num_words :=
  ⟨Reachable.enq_alloc (n := 2) (Reachable.init 8 (by decide)) rfl, by decide⟩

lemma add_mod_ne_self (N pos m : Nat) (h1 : 0 < m) (h2 : m < N) :
    (pos + m) % N ≠ pos % N := by
  intro h
  have hmod : m ≡ 0 [MOD N] := by
    have h0 : pos + m ≡ pos + 0 [MOD N] := by simpa [Nat.ModEq] using h
    exact Nat.ModEq.add_left_cancel' pos h0
  have : m % N = 0 := by simpa [Nat.ModEq] using hmod
  rw [Nat.mod_eq_of_lt h2] at this
  omega

lemma writeWords_outside (N : Nat) (ws : List Nat) :
    ∀ (d : Nat → Nat) (pos j : Nat),
      (∀ k, k < ws.length → (pos + k) % N ≠ j) →
      writeWords N d pos ws j = d j := by
  induction ws with
  | nil => intro d pos j _; rfl
  | cons w ws ih =>
    intro d pos j hk
    show writeWords N (writeWord N d pos w) (pos + 1) ws j = d j
    rw [ih (writeWord N d pos w) (pos + 1) j
      (fun k hlt => by
        have := hk (k + 1) (by simpa using Nat.succ_lt_succ hlt)
        simpa [Nat.add_assoc, Nat.add_comm 1 k] using this)]
    have h0 := hk 0 (by simp)
    simp only [Nat.add_zero] at h0
    unfold writeWord
    rw [if_neg (fun hj => h0 hj.symm)]

lemma readWords_writeWords (N : Nat) (ws : List Nat) :
    ∀ (d : Nat → Nat) (pos : Nat), ws.length ≤ N →
      readWords N (writeWords N d pos ws) pos ws.length = ws := by
  induction ws with
  | nil => intro d pos _; rfl
  | cons w ws ih =>
    intro d pos hlen
    show readWords N (writeWords N (writeWord N d pos w) (pos + 1) ws) pos
        (ws.length + 1) = w :: ws
    rw [readWords]
    congr 1
    · rw [writeWords_outside N ws (writeWord N d pos w) (pos + 1) (pos % N)
        (fun k hk => by
          have : (pos + (1 + k)) % N ≠ pos % N :=
            add_mod_ne_self N pos (1 + k) (by omega)
              (by simp at hlen; omega)
          simpa [Nat.add_assoc] using this)]
      simp [writeWord]
    · exact ih (writeWord N d pos w) (pos + 1) (by simp at hlen; omega)

/-- All four cursors of the channel coincide at `c`: no data stored, no
transaction in flight.  A freshly created channel satisfies `Quiescent _ 0`,
and each matched enqueue/dequeue pair preserves the property. -/
def Quiescent (rbf : ringbuf_file) (c : Nat) : Prop :=
  rbf.prod_head = c ∧ rbf.prod_tail = c ∧ rbf.cons_head = c ∧ rbf.cons_tail = c

lemma mod_two_cases (a N : Nat) (h : a < 2 * N) :
    a % N = if a < N then a else a - N := by
  split_ifs with h1
  · exact Nat.mod_eq_of_lt h1
  · rw [Nat.mod_eq_sub_mod (by omega), Nat.mod_eq_of_lt (by omega)]

lemma entries_after_load (rbf : ringbuf_file) (N c n : Nat)
    (hNw : rbf.num_words = N) (hc : c < N) (hn : n + 2 ≤ N) :
    ringbuf_file_num_entries rbf ((c + 1 + n) % N) c = n + 1 := by
  unfold ringbuf_file_num_entries
  rw [hNw, mod_two_cases _ _ (by omega)]
  split_ifs <;> omega

/-- One matched enqueue/dequeue pair on a quiescent channel: the enqueue
succeeds, the dequeue returns exactly the enqueued payload, and the channel is
again quiescent with every cursor advanced past the record. -/
lemma enqueue_dequeue_pair (rbf : ringbuf_file) (c : Nat) (p : List Nat)
    (hq : Quiescent rbf c) (hc : c < rbf.num_words)
    (hp : p.length + 2 ≤ rbf.num_words) :
    ∃ rbfE rbfF,
      ringbuf_enqueue rbf p p.length = (.RB_OK, rbfE) ∧
      ringbuf_dequeue rbfE rbfE.num_words = ((p.length : Int), rbfF, p) ∧
      rbfF.num_words = rbf.num_words ∧
      Quiescent rbfF ((c + 1 + p.length) % rbf.num_words) := by
  obtain ⟨hph, hpt, hch, hct⟩ := hq
  obtain ⟨N, wrapb, ph, pt, ch, ct, na, d⟩ := rbf
  dsimp only at hph hpt hch hct hc hp ⊢
  replace hph := hph.symm
  replace hpt := hpt.symm
  replace hch := hch.symm
  replace hct := hct.symm
  subst hph
  subst hpt
  subst hch
  subst hct
  refine ⟨{ num_words := N, wrap := wrapb,
            prod_head := (c + 1 + p.length) % N,
            prod_tail := (c + 1 + p.length) % N,
            cons_head := c, cons_tail := c, num_allocs := na + 1,
            data := writeWords N (writeWord N d c p.length) ((c + 1) % N) p },
          { num_words := N, wrap := wrapb,
            prod_head := (c + 1 + p.length) % N,
            prod_tail := (c + 1 + p.length) % N,
            cons_head := (c + 1 + p.length) % N,
            cons_tail := (c + 1 + p.length) % N, num_allocs := na + 1,
            data := writeWords N (writeWord N d c p.length) ((c + 1) % N) p },
          ?_, ?_, rfl, ⟨rfl, rfl, rfl, rfl⟩⟩
  case refine_1 =>
    have hfree : ringbuf_file_num_free
        { num_words := N, wrap := wrapb, prod_head := c, prod_tail := c,
          cons_head := c, cons_tail := c, num_allocs := na, data := d } c c
        = N - 1 := by
      unfold ringbuf_file_num_free
      rw [if_neg (by omega)]
      dsimp only
      omega
    have halloc : ringbuf_enqueue_alloc
        { num_words := N, wrap := wrapb, prod_head := c, prod_tail := c,
          cons_head := c, cons_tail := c, num_allocs := na, data := d } p.length =
        some ({ record_start := (c + 1) % N, next := (c + 1 + p.length) % N,
                seen := c },
              { num_words := N, wrap := wrapb,
                prod_head := (c + 1 + p.length) % N, prod_tail := c,
                cons_head := c, cons_tail := c, num_allocs := na,
                data := writeWord N d c p.length }) := by
      unfold ringbuf_enqueue_alloc
      show (if p.length + 1 ≤ ringbuf_file_num_free
              { num_words := N, wrap := wrapb, prod_head := c, prod_tail := c,
                cons_head := c, cons_tail := c, num_allocs := na, data := d } c c
            then _ else none) = _
      rw [hfree, if_pos (by omega)]
    unfold ringbuf_enqueue
    rw [halloc]
    show (ringbuf_error.RB_OK,
          ringbuf_enqueue_commit
            { num_words := N, wrap := wrapb,
              prod_head := (c + 1 + p.length) % N, prod_tail := c,
              cons_head := c, cons_tail := c, num_allocs := na,
              data := writeWords N (writeWord N d c p.length) ((c + 1) % N)
                        (p.take p.length) }
            { record_start := (c + 1) % N, next := (c + 1 + p.length) % N,
              seen := c }) = _
    rw [List.take_length]
    rfl
  case refine_2 =>
    have hnotouch : ∀ k, k < p.length → ((c + 1) % N + k) % N ≠ c := by
      intro k hk
      rw [Nat.mod_add_mod]
      intro hcontra
      exact add_mod_ne_self N c (1 + k) (by omega) (by omega)
        (by rw [show c + (1 + k) = c + 1 + k from by omega, hcontra,
                Nat.mod_eq_of_lt hc])
    have hszeq : writeWords N (writeWord N d c p.length) ((c + 1) % N) p (c % N)
        = p.length := by
      rw [Nat.mod_eq_of_lt hc]
      rw [writeWords_outside N p (writeWord N d c p.length) ((c + 1) % N) c hnotouch]
      unfold writeWord
      rw [if_pos (Nat.mod_eq_of_lt hc).symm]
    have hread : readWords N (writeWords N (writeWord N d c p.length) ((c + 1) % N) p)
        ((c + 1) % N) p.length = p :=
      readWords_writeWords N p (writeWord N d c p.length) ((c + 1) % N) (by omega)
    have hda : ringbuf_dequeue_alloc
        { num_words := N, wrap := wrapb,
          prod_head := (c + 1 + p.length) % N, prod_tail := (c + 1 + p.length) % N,
          cons_head := c, cons_tail := c, num_allocs := na + 1,
          data := writeWords N (writeWord N d c p.length) ((c + 1) % N) p } =
        some (p.length,
              { record_start := (c + 1) % N, next := (c + 1 + p.length) % N,
                seen := c },
              { num_words := N, wrap := wrapb,
                prod_head := (c + 1 + p.length) % N,
                prod_tail := (c + 1 + p.length) % N,
                cons_head := (c + 1 + p.length) % N, cons_tail := c,
                num_allocs := na + 1,
                data := writeWords N (writeWord N d c p.length) ((c + 1) % N) p }) := by
      have hne := entries_after_load
        { num_words := N, wrap := wrapb,
          prod_head := (c + 1 + p.length) % N, prod_tail := (c + 1 + p.length) % N,
          cons_head := c, cons_tail := c, num_allocs := na + 1,
          data := writeWords N (writeWord N d c p.length) ((c + 1) % N) p }
        N c p.length rfl hc hp
      unfold ringbuf_dequeue_alloc
      show (if ringbuf_file_num_entries
              { num_words := N, wrap := wrapb,
                prod_head := (c + 1 + p.length) % N,
                prod_tail := (c + 1 + p.length) % N,
                cons_head := c, cons_tail := c, num_allocs := na + 1,
                data := writeWords N (writeWord N d c p.length) ((c + 1) % N) p }
              ((c + 1 + p.length) % N) c = 0
            then none
            else some
              (writeWords N (writeWord N d c p.length) ((c + 1) % N) p (c % N),
               ({ record_start := (c + 1) % N,
                  next := (c + 1 + writeWords N (writeWord N d c p.length)
                             ((c + 1) % N) p (c % N)) % N,
                  seen := c } : ringbuf_tx),
               ({ num_words := N, wrap := wrapb,
                  prod_head := (c + 1 + p.length) % N,
                  prod_tail := (c + 1 + p.length) % N,
                  cons_head := (c + 1 + writeWords N (writeWord N d c p.length)
                                  ((c + 1) % N) p (c % N)) % N,
                  cons_tail := c, num_allocs := na + 1,
                  data := writeWords N (writeWord N d c p.length) ((c + 1) % N) p }
                 : ringbuf_file)))
          = _
      rw [if_neg (by omega), hszeq]
    unfold ringbuf_dequeue
    rw [hda]
    show (if N < p.length
          then ((-1 : Int),
                ({ num_words := N, wrap := wrapb,
                   prod_head := (c + 1 + p.length) % N,
                   prod_tail := (c + 1 + p.length) % N,
                   cons_head := (c + 1 + p.length) % N, cons_tail := c,
                   num_allocs := na + 1,
                   data := writeWords N (writeWord N d c p.length) ((c + 1) % N) p }
                  : ringbuf_file),
                ([] : List Nat))
          else ((p.length : Int),
                ringbuf_dequeue_commit
                  { num_words := N, wrap := wrapb,
                    prod_head := (c + 1 + p.length) % N,
                    prod_tail := (c + 1 + p.length) % N,
                    cons_head := (c + 1 + p.length) % N, cons_tail := c,
                    num_allocs := na + 1,
                    data := writeWords N (writeWord N d c p.length) ((c + 1) % N) p }
                  { record_start := (c + 1) % N, next := (c + 1 + p.length) % N,
                    seen := c },
                readWords N (writeWords N (writeWord N d c p.length) ((c + 1) % N) p)
                  ((c + 1) % N) p.length)) = _
    rw [if_neg (by omega)]
    show ((p.length : Int),
          ringbuf_dequeue_commit
            { num_words := N, wrap := wrapb,
              prod_head := (c + 1 + p.length) % N,
              prod_tail := (c + 1 + p.length) % N,
              cons_head := (c + 1 + p.length) % N, cons_tail := c,
              num_allocs := na + 1,
              data := writeWords N (writeWord N d c p.length) ((c + 1) % N) p }
            { record_start := (c + 1) % N, next := (c + 1 + p.length) % N,
              seen := c },
          readWords N (writeWords N (writeWord N d c p.length) ((c + 1) % N) p)
            ((c + 1) % N) p.length) = _
    rw [hread]
    rfl

/-- Runs a sequence of matched enqueue/dequeue pairs: for each payload in
turn, `ringbuf_enqueue` it and immediately `ringbuf_dequeue` it (with a caller
buffer of the full channel capacity), collecting the dequeued payloads.
Returns `none` if any enqueue or dequeue reports an error. -/
def runPairs (rbf : ringbuf_file) : List (List Nat) → Option (List (List Nat))
  | [] => some []
  | p :: ps =>
    match ringbuf_enqueue rbf p p.length with
    | (ringbuf_error.RB_OK, rbf1) =>
      let r := ringbuf_dequeue rbf1 rbf1.num_words
      if r.1 < 0 then none
      else
        match runPairs r.2.1 ps with
        | some outs => some (r.2.2 :: outs)
        | none => none
    | (_, _) => none

lemma runPairs_quiescent : ∀ (ps : List (List Nat)) (rbf : ringbuf_file) (c : Nat),
    Quiescent rbf c → c < rbf.num_words →
    (∀ p ∈ ps, p.length + 2 ≤ rbf.num_words) →
    runPairs rbf ps = some ps := by
  intro ps
  induction ps with
  | nil => intro rbf c _ _ _; rfl
  | cons p ps ih =>
    intro rbf c hq hc hps
    obtain ⟨rbfE, rbfF, hE, hD, hNF, hQF⟩ :=
      enqueue_dequeue_pair rbf c p hq hc (hps p (by simp))
    unfold runPairs
    rw [hE]
    show (if (ringbuf_dequeue rbfE rbfE.num_words).1 < 0 then none
          else _) = some (p :: ps)
    rw [hD]
    rw [if_neg (by simp)]
    show (match runPairs rbfF ps with
          | some outs => some (p :: outs)
          | none => none) = some (p :: ps)
    rw [ih rbfF ((c + 1 + p.length) % rbf.num_words) hQF
      (by rw [hNF]; exact Nat.mod_lt _ (by have := hps p (by simp); omega))
      (fun q hqmem => by rw [hNF]; exact hps q (by simp [hqmem]))]

/-- Claim C1: for every sequence of matched enqueue/dequeue pairs on a freshly
created channel, the payload words returned by `ringbuf_dequeue` equal, word
for word, the payload words passed to the matching `ringbuf_enqueue` (each
record must fit: payload length plus one length-prefix word at most
capacity − 1). -/
theorem ringbuf_enqueue_dequeue_roundtrip (N : Nat) (ps : List (List Nat))
    (hps : ∀ p ∈ ps, p.length + 2 ≤ N) :
    runPairs (freshRingbuf N) ps = some ps := by
  cases ps with
  | nil => rfl
  | cons p ps =>
    exact runPairs_quiescent (p :: ps) (freshRingbuf N) 0
      ⟨rfl, rfl, rfl, rfl⟩ (by have := hps p (by simp); simp [freshRingbuf]; omega)
      (by simpa [freshRingbuf] using hps)

/-- Witness for `ringbuf_enqueue_dequeue_roundtrip`: two concrete pairs on a
fresh capacity-4 channel. -/
theorem ringbuf_enqueue_dequeue_roundtrip_witness :
    (∀ p ∈ [[7, 9], [5]], List.length p + 2 ≤ 4) ∧
    runPairs (freshRingbuf 4) [[7, 9], [5]] = some [[7, 9], [5]] :=
  ⟨by decide, ringbuf_enqueue_dequeue_roundtrip 4 [[7, 9], [5]] (by decide)⟩

/-- Claim C3: the channel state `ringbuf_dequeue` is applied to below — a
fresh capacity-8 channel holding one committed 3-word record. -/
def c3state : ringbuf_file := (ringbuf_enqueue (freshRingbuf 8) [5, 6, 7] 3).2

/-- Claim C3, code evaluated at the failing input: dequeuing with a 1-word
caller buffer returns the error −1 and copies nothing out, but the
consumer-head cursor is left advanced past the record (4) while consumer-tail
still points at it (0): the reservation is neither rolled back nor committed,
so the channel state is changed on this error, contradicting the claim. -/
theorem dequeue_small_buffer_leaves_cursor_advanced :
    c3state.cons_head = 0 ∧ c3state.cons_tail = 0 ∧
    (ringbuf_dequeue c3state 1).1 = -1 ∧
    (ringbuf_dequeue c3state 1).2.2 = [] ∧
    (ringbuf_dequeue c3state 1).2.1.cons_head = 4 ∧
    (ringbuf_dequeue c3state 1).2.1.cons_tail = 0 := by
  refine ⟨rfl, rfl, ?_, rfl, rfl, rfl⟩
  decide

/-!
Tuple codec (rmadmin/serValue.cpp).  The schema descriptor type
`conf::RamenType` and its subclasses (confValue.h) are not among the available
sources; the shape used by `unserialize` — a tag, a `nullable` flag, tuple
fields, vector dimension and element type, record fields with names and a
serialization order — is reconstructed below, and `nullmaskWidth` is modelled
from the spec.  The word memory is a function `Nat → Nat` (values below
`2 ^ 32`), read through the same casts the C code performs, little-endian. -/

/-- Value type tags, from `enum ValueType` as used by serValue.cpp
(`AnyType` tags `Null`, `EmptyType` tags `Error`). -/
inductive ValueType where
  | AnyType | EmptyType | FloatType | StringType | BoolType
  | U8Type | U16Type | U32Type | U64Type | U128Type
  | I8Type | I16Type | I32Type | I64Type | I128Type
  | EthType | Ipv4Type | Ipv6Type | IpType
  | Cidrv4Type | Cidrv6Type | CidrType
  | TupleType | VecType | ListType | RecordType
  deriving DecidableEq, Repr

/-- Decoded values, from the `ser::Value` class hierarchy of serValue.cpp.
Numeric payloads hold the raw little-endian bits the C constructors read
(`Float` keeps the raw IEEE-754 double bits: no claim concerns float
semantics); `String` holds the bytes appended one by one; `Record` fields are
`Option Value` because the C code pre-fills the field vector with null
pointers before the serialization-order pass assigns them. -/
inductive Value where
  | Null
  | Error (errMsg : String)
  | Float (v : Nat)
  | Bool (v : Bool)
  | String (v : List Nat)
  | U8 (v : Nat) | U16 (v : Nat) | U32 (v : Nat) | U64 (v : Nat) | U128 (v : Nat)
  | I8 (v : Int) | I16 (v : Int) | I32 (v : Int) | I64 (v : Int) | I128 (v : Int)
  | Eth (v : Nat) | Ipv4 (v : Nat) | Ipv6 (v : Nat)
  | Tuple (fieldValues : List Value)
  | Vec (values : List Value)
  | Record (fieldValues : List (String × Option Value))

/-- The `type` field each `ser::Value` constructor sets
(serValue.cpp: `Null` passes `AnyType`, `Error` passes `EmptyType`, every
other subclass passes its own tag). -/
def Value.type : Value → ValueType
  | .Null => .AnyType
  | .Error _ => .EmptyType
  | .Float _ => .FloatType
  | .Bool _ => .BoolType
  | .String _ => .StringType
  | .U8 _ => .U8Type
  | .U16 _ => .U16Type
  | .U32 _ => .U32Type
  | .U64 _ => .U64Type
  | .U128 _ => .U128Type
  | .I8 _ => .I8Type
  | .I16 _ => .I16Type
  | .I32 _ => .I32Type
  | .I64 _ => .I64Type
  | .I128 _ => .I128Type
  | .Eth _ => .EthType
  | .Ipv4 _ => .Ipv4Type
  | .Ipv6 _ => .Ipv6Type
  | .Tuple _ => .TupleType
  | .Vec _ => .VecType
  | .Record _ => .RecordType

/-- Base-class equality `Value::operator==` (serValue.cpp lines 23-26):
compares only the `type` tags. -/
def Value.operatorEq (v other : Value) :=
  other.type == v.type

/-- Base-class inequality `Value::operator!=` (serValue.cpp lines 28-31):
the negation of `operator==`. -/
def Value.operatorNe (v other : Value) :=
  ! v.operatorEq other

/-- Number of words required to store `sz` bytes, from `roundUpWords`
(serValue.cpp lines 39-43): `(sz + 3) >> 2`. -/
def roundUpWords (sz : Nat) : Nat :=
  (sz + 3) >>> 2

/-- Schema descriptor as consumed by `unserialize`.  `base` covers every node
that carries only a tag (scalars, and the unsupported `Ip`/`Cidr`/`List`
tags); it also represents a node whose tag claims tuple/vector/record but
which is not the corresponding subclass, which `unserialize` answers with the
`Invalid tag` error.  `tuple`, `vec` and `record` mirror
`conf::RamenTypeTuple` (field types), `conf::RamenTypeVec` (dimension and
element type) and `conf::RamenTypeRecord` (named field types in declaration
order plus the `serOrder` permutation). -/
inductive RamenType where
  | base (nullable : Bool) (tag : ValueType)
  | tuple (nullable : Bool) (fields : List RamenType)
  | vec (nullable : Bool) (dim : Nat) (sub : RamenType)
  | record (nullable : Bool) (fields : List (String × RamenType))
      (serOrder : List Nat)

/-- The `nullable` flag of a schema node (`conf::RamenType::nullable`). -/
def RamenType.nullable : RamenType → Bool
  | .base nb _ => nb
  | .tuple nb _ => nb
  | .vec nb _ _ => nb
  | .record nb _ _ => nb

/-- Modelled from the spec: `conf::RamenType::nullmaskWidth` (confValue.h,
not among the available sources).  Spec §4.2: a composite value's nullmask is
"sized to the number of *nullable* immediate children", one present/absent bit
per nullable child, so the width (in bits) is the number of nullable immediate
children — for a vector, its dimension when the element type is nullable.
The spec draws no top-level distinction, so the flag is ignored.  Scalar
nodes have no children. -/
def RamenType.nullmaskWidth : RamenType → Bool → Nat
  | .base _ _, _ => 0
  | .tuple _ fields, _ => (fields.filter RamenType.nullable).length
  | .vec _ dim sub, _ => if sub.nullable then dim else 0
  | .record _ fields _, _ =>
      ((fields.map Prod.snd).filter RamenType.nullable).length

/-- Byte `byteIdx` of the word memory `w`, little-endian: the C codec casts
the `uint32_t const *` cursor to `char const *` / `unsigned char const *`
(String constructor, nullmask access). -/
def byteOf (w : Nat → Nat) (byteIdx : Nat) : Nat :=
  w (byteIdx / 4) / 2 ^ (8 * (byteIdx % 4)) % 256

/-- Two's-complement reinterpretation of the low `bits` bits, for the signed
integer casts (`int8_t` … `int128_t`) of the C constructors. -/
def asInt (bits : Nat) (v : Nat) : Int :=
  if v < 2 ^ (bits - 1) then (v : Int) else (v : Int) - 2 ^ bits

/-- Bit test on a byte-addressed nullmask, translated from `bitSet`
(serValue.cpp lines 224-228): recurses to the next byte while the bit index
is at least 8, then masks the requested bit.  `bytes` is the byte view of the
memory and `addr` the byte address the C `nullmask` pointer holds. -/
def bitSet (bytes : Nat → Nat) (addr : Nat) (null_i : Nat) : Bool :=
  if 8 ≤ null_i then bitSet bytes (addr + 1) (null_i - 8)
  else (bytes addr).land (1 <<< null_i) != 0
termination_by null_i
decreasing_by omega

lemma sizeOf_snd_get_lt (fields : List (String × RamenType)) (i : Nat)
    (h : i < fields.length) :
    sizeOf (fields[i].2) < sizeOf fields := by
  have h2 := List.sizeOf_lt_of_mem (List.getElem_mem h)
  generalize hF : fields[i] = F at h2 ⊢
  obtain ⟨a, b⟩ := F
  simp only [Prod.mk.sizeOf_spec] at h2
  simp only
  omega

mutual

/-- Schema-driven decoder, translated from `unserialize` (serValue.cpp lines
230-417).  The C function advances the cursor `start` by reference; here the
new cursor is returned as the second component.  `w` is the word memory,
`max` the exclusive word limit.  Debug output is dropped; the
`assert(!topLevel || !type->nullable)` only runs in debug builds and is not
modelled (no claim exercises it).  Recursive calls pass `topLevel = false`
like the C call sites, which rely on the declaration's default argument. -/
def unserialize (t : RamenType) (w : Nat → Nat) (start max : Nat)
    (topLevel : Bool) : Value × Nat :=
  match t with
  | .base _ tag =>
    match tag with
    | .FloatType =>
      if start + 2 > max then (.Error "Cannot unserialize float", start)
      else (.Float (w start + 2 ^ 32 * w (start + 1)), start + 2)
    | .StringType =>
      if start + 1 > max then (.Error "Cannot unserialize string", start)
      else
        let len := w start
        let wordLen := roundUpWords len
        if start + 1 + wordLen > max then
          (.Error ("Cannot unserialize of length " ++ toString len), start + 1)
        else
          (.String ((List.range len).map (fun i => byteOf w (4 * (start + 1) + i))),
           start + 1 + wordLen)
    | .BoolType =>
      if start + 1 > max then (.Error "Cannot unserialize bool", start)
      else (.Bool (w start != 0), start + 1)
    | .U8Type =>
      if start + 1 > max then (.Error "Cannot unserialize u8", start)
      else (.U8 (w start % 2 ^ 8), start + 1)
    | .U16Type =>
      if start + 1 > max then (.Error "Cannot unserialize u16", start)
      else (.U16 (w start % 2 ^ 16), start + 1)
    | .U32Type =>
      if start + 1 > max then (.Error "Cannot unserialize u32", start)
      else (.U32 (w start), start + 1)
    | .I8Type =>
      if start + 1 > max then (.Error "Cannot unserialize i8", start)
      else (.I8 (asInt 8 (w start % 2 ^ 8)), start + 1)
    | .I16Type =>
      if start + 1 > max then (.Error "Cannot unserialize i16", start)
      else (.I16 (asInt 16 (w start % 2 ^ 16)), start + 1)
    | .I32Type =>
      if start + 1 > max then (.Error "Cannot unserialize i32", start)
      else (.I32 (asInt 32 (w start)), start + 1)
    | .Ipv4Type =>
      if start + 1 > max then (.Error "Cannot unserialize ipv4", start)
      else (.Ipv4 (w start + 2 ^ 32 * w (start + 1)), start + 2)
    | .U64Type =>
      if start + 2 > max then (.Error "Cannot unserialize u64", start)
      else (.U64 (w start + 2 ^ 32 * w (start + 1)), start + 2)
    | .I64Type =>
      if start + 2 > max then (.Error "Cannot unserialize i64", start)
      else (.I64 (asInt 64 (w start + 2 ^ 32 * w (start + 1))), start + 2)
    | .EthType =>
      if start + 2 > max then (.Error "Cannot unserialize eth", start)
      else (.Eth (w start + 2 ^ 32 * w (start + 1)), start + 2)
    | .U128Type =>
      if start + 4 > max then (.Error "Cannot unserialize u128", start)
      else (.U128 (w start + 2 ^ 32 * w (start + 1) + 2 ^ 64 * w (start + 2)
                     + 2 ^ 96 * w (start + 3)), start + 4)
    | .I128Type =>
      if start + 4 > max then (.Error "Cannot unserialize i128", start)
      else (.I128 (asInt 128 (w start + 2 ^ 32 * w (start + 1)
                     + 2 ^ 64 * w (start + 2) + 2 ^ 96 * w (start + 3))), start + 4)
    | .Ipv6Type =>
      if start + 4 > max then (.Error "Cannot unserialize ipv6", start)
      else (.Ipv6 (w start + 2 ^ 32 * w (start + 1) + 2 ^ 64 * w (start + 2)
                     + 2 ^ 96 * w (start + 3)), start + 4)
    | .IpType => (.Error "TODO: unserialize", start)
    | .Cidrv4Type => (.Error "TODO: unserialize", start)
    | .Cidrv6Type => (.Error "TODO: unserialize", start)
    | .CidrType => (.Error "TODO: unserialize", start)
    | .ListType => (.Error "TODO: unserialize lists", start)
    | .TupleType => (.Error "Cannot unserialize: Invalid tag for tuple", start)
    | .VecType => (.Error "Cannot unserialize: Invalid tag for vector", start)
    | .RecordType => (.Error "Cannot unserialize: Invalid tag for record", start)
    | .AnyType => (.Error "Cannot unserialize: unknown tag", start)
    | .EmptyType => (.Error "Cannot unserialize: unknown tag", start)
  | .tuple _ fields =>
    let nmw := RamenType.nullmaskWidth t topLevel
    let maskAddr := 4 * start
    let start1 := start + roundUpWords nmw
    if start1 > max then (.Error "Invalid start/max", start1)
    else
      let r := unserFields fields w maskAddr 0 start1 max
      (.Tuple r.1, r.2)
  | .vec _ dim sub =>
    let nmw := RamenType.nullmaskWidth t topLevel
    let maskAddr := 4 * start
    let start1 := start + roundUpWords nmw
    if start1 > max then (.Error "Invalid start/max", start1)
    else
      let r := unserVecLoop sub dim w maskAddr 0 start1 max
      (.Vec r.1, r.2)
  | .record _ fields serOrder =>
    let nmw := RamenType.nullmaskWidth t topLevel
    let maskAddr := 4 * start
    let start1 := start + roundUpWords ((nmw + 7) / 8)
    if start1 > max then (.Error "Invalid start/max", start1)
    else
      let r := unserRecFields fields serOrder w maskAddr 0 start1 max
                 (List.replicate fields.length (("", none) : String × Option Value))
      (.Record r.1, r.2)
termination_by (sizeOf t, 0)

/-- The field loop of the `TupleType` case of `unserialize` (serValue.cpp
lines 316-332): one bit of the nullmask per *nullable* field, absent fields
become `Null` without moving the cursor, other fields recurse. -/
def unserFields (fields : List RamenType) (w : Nat → Nat) (mask : Nat)
    (null_i start max : Nat) : List Value × Nat :=
  match fields with
  | [] => ([], start)
  | sub :: rest =>
    if sub.nullable then
      if bitSet (byteOf w) mask null_i then
        let p := unserialize sub w start max false
        let q := unserFields rest w mask (null_i + 1) p.2 max
        (p.1 :: q.1, q.2)
      else
        let q := unserFields rest w mask (null_i + 1) start max
        (Value.Null :: q.1, q.2)
    else
      let p := unserialize sub w start max false
      let q := unserFields rest w mask null_i p.2 max
      (p.1 :: q.1, q.2)
termination_by (sizeOf fields, 0)

/-- The element loop of the `VecType` case of `unserialize` (serValue.cpp
lines 351-364): `dim` repetitions of the element type, with the same
nullmask handling as the tuple loop. -/
def unserVecLoop (sub : RamenType) (dim : Nat) (w : Nat → Nat) (mask : Nat)
    (null_i start max : Nat) : List Value × Nat :=
  match dim with
  | 0 => ([], start)
  | d + 1 =>
    if sub.nullable then
      if bitSet (byteOf w) mask null_i then
        let p := unserialize sub w start max false
        let q := unserVecLoop sub d w mask (null_i + 1) p.2 max
        (p.1 :: q.1, q.2)
      else
        let q := unserVecLoop sub d w mask (null_i + 1) start max
        (Value.Null :: q.1, q.2)
    else
      let p := unserialize sub w start max false
      let q := unserVecLoop sub d w mask null_i p.2 max
      (p.1 :: q.1, q.2)
termination_by (sizeOf sub, dim + 1)

/-- The serialization-order loop of the `RecordType` case of `unserialize`
(serValue.cpp lines 389-411): children are visited in `order` (the wire
order); each decoded child is stored into the accumulator at its logical
field index with the field name from the schema.  An out-of-range `order`
entry is undefined behaviour in the C code (vector indexing past the end)
and is skipped here. -/
def unserRecFields (fields : List (String × RamenType)) (order : List Nat)
    (w : Nat → Nat) (mask : Nat) (null_i start max : Nat)
    (acc : List (String × Option Value)) : List (String × Option Value) × Nat :=
  match order with
  | [] => (acc, start)
  | fieldIdx :: rest =>
    if h : fieldIdx < fields.length then
      have hsz : sizeOf (fields[fieldIdx].2) < sizeOf fields :=
        sizeOf_snd_get_lt fields fieldIdx h
      let field := fields.get ⟨fieldIdx, h⟩
      if field.2.nullable then
        if bitSet (byteOf w) mask null_i then
          let p := unserialize field.2 w start max false
          unserRecFields fields rest w mask (null_i + 1) p.2 max
            (acc.set fieldIdx (field.1, some p.1))
        else
          unserRecFields fields rest w mask (null_i + 1) start max
            (acc.set fieldIdx (field.1, some Value.Null))
      else
        let p := unserialize field.2 w start max false
        unserRecFields fields rest w mask null_i p.2 max
          (acc.set fieldIdx (field.1, some p.1))
    else
      unserRecFields fields rest w mask null_i start max acc
termination_by (sizeOf fields, order.length)

end

/-- Claim C10: the base-class `Value::operator==` compares only the type
tags — `v == w` holds iff the tags are equal, regardless of payloads, and
`operator!=` is exactly its negation; in particular two same-variant values
with different payloads (`U8 1`, `U8 2`) compare equal. -/
theorem value_base_equality_tag_only :
    (∀ v w : Value, (Value.operatorEq v w = true ↔ w.type = v.type)) ∧
    (∀ v w : Value, Value.operatorNe v w = ! Value.operatorEq v w) ∧
    Value.operatorEq (.U8 1) (.U8 2) = true ∧
    Value.operatorNe (.U8 1) (.U8 2) = false := by
  refine ⟨fun v w => ?_, fun v w => rfl, rfl, rfl⟩
  simp [Value.operatorEq]

/-- Claim C2, code evaluated at the failing input: an `Ipv4Type` node decoded
with exactly one word in range (`start = 0`, `limit = 1`) passes the case's
`start + 1 > max` check and builds the value from TWO words, so the result
depends on the word at index 1 — at and past the limit — and the cursor lands
at 2 > limit, instead of the `Error` the contract requires.  The two memories
agree on every word below the limit yet produce different values. -/
theorem ipv4_unserialize_reads_past_limit :
    unserialize (.base false .Ipv4Type) (fun _ => 0) 0 1 false = (.Ipv4 0, 2) ∧
    unserialize (.base false .Ipv4Type) (fun i => if i = 0 then 0 else 5) 0 1 false
      = (.Ipv4 (5 * 2 ^ 32), 2) ∧
    (5 * 2 ^ 32 : Nat) ≠ 0 ∧
    (fun _ => (0 : Nat)) 0 = (fun i => if i = 0 then (0 : Nat) else 5) 0 :=
  ⟨by simp [unserialize], by simp [unserialize], by norm_num, rfl⟩

/-- Claim C9 (amended): each scalar decode consumes a fixed word count per
width class — 1 word for the ≤32-bit types, 2 words for float (stored in
double precision), the 64-bit types, Ethernet and IPv4, 4 words for the
128-bit types and IPv6 — and strings consume one length word plus the byte
length rounded up to whole words. -/
theorem scalar_word_counts (nb : Bool) (w : Nat → Nat) (start max : Nat) :
    (start + 1 ≤ max →
      (unserialize (.base nb .BoolType) w start max false).2 = start + 1 ∧
      (unserialize (.base nb .U8Type) w start max false).2 = start + 1 ∧
      (unserialize (.base nb .U16Type) w start max false).2 = start + 1 ∧
      (unserialize (.base nb .U32Type) w start max false).2 = start + 1 ∧
      (unserialize (.base nb .I8Type) w start max false).2 = start + 1 ∧
      (unserialize (.base nb .I16Type) w start max false).2 = start + 1 ∧
      (unserialize (.base nb .I32Type) w start max false).2 = start + 1) ∧
    (start + 1 ≤ max →
      (unserialize (.base nb .Ipv4Type) w start max false).2 = start + 2) ∧
    (start + 2 ≤ max →
      (unserialize (.base nb .FloatType) w start max false).2 = start + 2 ∧
      (unserialize (.base nb .U64Type) w start max false).2 = start + 2 ∧
      (unserialize (.base nb .I64Type) w start max false).2 = start + 2 ∧
      (unserialize (.base nb .EthType) w start max false).2 = start + 2) ∧
    (start + 4 ≤ max →
      (unserialize (.base nb .U128Type) w start max false).2 = start + 4 ∧
      (unserialize (.base nb .I128Type) w start max false).2 = start + 4 ∧
      (unserialize (.base nb .Ipv6Type) w start max false).2 = start + 4) ∧
    (start + 1 ≤ max → start + 1 + roundUpWords (w start) ≤ max →
      (unserialize (.base nb .StringType) w start max false).2
        = start + 1 + roundUpWords (w start)) := by
  refine ⟨fun h => ?_, fun h => ?_, fun h => ?_, fun h => ?_, fun h1 h2 => ?_⟩
  · refine ⟨?_, ?_, ?_, ?_, ?_, ?_, ?_⟩ <;>
      (simp only [unserialize]; rw [if_neg (by omega)])
  · simp only [unserialize]
    rw [if_neg (by omega)]
  · refine ⟨?_, ?_, ?_, ?_⟩ <;> (simp only [unserialize]; rw [if_neg (by omega)])
  · refine ⟨?_, ?_, ?_⟩ <;> (simp only [unserialize]; rw [if_neg (by omega)])
  · simp only [unserialize]
    rw [if_neg (by omega), if_neg (by omega)]

/-- Witness for `scalar_word_counts`: the float case at a concrete input. -/
theorem scalar_word_counts_witness :
    (unserialize (.base false .FloatType) (fun _ => 0) 0 8 false).2 = 0 + 2 :=
  ((scalar_word_counts false (fun _ => 0) 0 8).2.2.1 (by omega)).1

/-- Claim C9, counterexample to the claim as stated: floats are grouped with
the 1-word (≤32-bit) class by the claim, but decoding a `FloatType` node
consumes 2 words (the value is a double, read from two words), not 1. -/
theorem float_consumes_two_words_counterexample :
    (unserialize (.base false .FloatType) (fun _ => 0) 0 8 false).2 = 2 ∧
    (2 : Nat) ≠ 0 + 1 := by
  constructor
  · simp [unserialize]
  · decide

lemma land_zero (n : Nat) : Nat.land 0 n = 0 := Nat.zero_and n

/-- A tuple of 5 nullable booleans (claim C6's failing shape). -/
def tuple5 : RamenType :=
  .tuple false (List.replicate 5 (.base true .BoolType))

/-- A vector of 5 nullable booleans (claim C6's failing shape). -/
def vec5 : RamenType :=
  .vec false 5 (.base true .BoolType)

/-- A record of 5 nullable boolean fields (claim C6's failing shape). -/
def record5 : RamenType :=
  .record false [("a", .base true .BoolType), ("b", .base true .BoolType),
                 ("c", .base true .BoolType), ("d", .base true .BoolType),
                 ("e", .base true .BoolType)] [0, 1, 2, 3, 4]

/-- Claim C6, code evaluated at the failing input: with 5 nullable children
and an all-zero nullmask, the tuple and vector cases consume
`roundUpWords nullmaskWidth` = ⌈5/4⌉ = 2 nullmask words (passing the BIT
count to a bytes-to-words conversion) while the record case consumes
`roundUpWords ((nullmaskWidth + 7) / 8)` = ⌈⌈5/8⌉/4⌉ = 1 word — the three
composite kinds do not consume the same number of nullmask words, and only
the record case matches the claimed ⌈bits/32⌉. -/
theorem nullmask_words_tuple_vs_record :
    unserialize tuple5 (fun _ => 0) 0 10 false
      = (.Tuple [.Null, .Null, .Null, .Null, .Null], 2) ∧
    unserialize vec5 (fun _ => 0) 0 10 false
      = (.Vec [.Null, .Null, .Null, .Null, .Null], 2) ∧
    unserialize record5 (fun _ => 0) 0 10 false
      = (.Record [("a", some .Null), ("b", some .Null), ("c", some .Null),
                  ("d", some .Null), ("e", some .Null)], 1) ∧
    (2 : Nat) ≠ 1 := by
  refine ⟨?_, ?_, ?_, by decide⟩ <;>
    simp [unserialize, tuple5, vec5, record5, unserFields, unserVecLoop,
      unserRecFields, bitSet, byteOf, RamenType.nullmaskWidth, roundUpWords,
      RamenType.nullable, land_zero,
      (show ((3 : Fin 5) : Nat) = 3 from rfl), (show ((4 : Fin 5) : Nat) = 4 from rfl)]

/-- Number of nullable types in a list: the number of nullmask bits the
decoder's loop consumes over those children. -/
def nullableCount (fields : List RamenType) : Nat :=
  (fields.filter RamenType.nullable).length

lemma nullableCount_cons (a : RamenType) (A : List RamenType) :
    nullableCount (a :: A)
      = if a.nullable then nullableCount A + 1 else nullableCount A := by
  unfold nullableCount
  rw [List.filter_cons]
  split_ifs with h
  · simp
  · rfl

lemma unserFields_append (A : List RamenType) :
    ∀ (B : List RamenType) (w : Nat → Nat) (mask null_i start max : Nat),
      unserFields (A ++ B) w mask null_i start max =
        ((unserFields A w mask null_i start max).1 ++
           (unserFields B w mask (null_i + nullableCount A)
              (unserFields A w mask null_i start max).2 max).1,
         (unserFields B w mask (null_i + nullableCount A)
            (unserFields A w mask null_i start max).2 max).2) := by
  induction A with
  | nil =>
    intro B w mask null_i start max
    simp [unserFields, nullableCount]
  | cons a A ih =>
    intro B w mask null_i start max
    by_cases hnul : a.nullable = true
    · by_cases hbit : bitSet (byteOf w) mask null_i = true
      · simp only [List.cons_append, unserFields, hnul, hbit, if_true]
        rw [ih]
        simp [nullableCount_cons, hnul, Nat.add_assoc, Nat.add_comm,
          Nat.add_left_comm]
      · simp only [List.cons_append, unserFields, hnul, hbit, if_true,
          Bool.false_eq_true, if_false]
        rw [ih]
        simp [nullableCount_cons, hnul, Nat.add_assoc, Nat.add_comm,
          Nat.add_left_comm]
    · simp only [List.cons_append, unserFields, hnul, Bool.false_eq_true,
        if_false]
      rw [ih]
      simp [nullableCount_cons, hnul, Nat.add_assoc, Nat.add_comm,
        Nat.add_left_comm]

/-- Record schema with 3 nullable fields (`a`, `c`, `d`) and one non-nullable
field (`b`) interleaved, serialization order = declaration order (claim C7's
concrete scenario). -/
def recC7 : RamenType :=
  .record false [("a", .base true .U8Type), ("b", .base false .U32Type),
                 ("c", .base true .U8Type), ("d", .base true .U8Type)]
    [0, 1, 2, 3]

/-- Claim C7: the nullmask bit tested for a nullable child is indexed by that
child's position among the nullable children only — in the decoding of
`A ++ f :: B` with `f` nullable, the bit tested for `f` is
`null_i + nullableCount A` (non-nullable members of `A` consume no bit), and
when that bit is clear `f` decodes to `Null` while consuming zero payload
words (`B` is decoded from the exact cursor `A` ended at). Concretely, a
record with 3 nullable fields and mask bits [1,0,1] (mask word 5) yields the
second nullable field (`c`) as `Null` and the other two as decoded values,
with the non-nullable sibling `b` consuming no bit. -/
theorem nullmask_bit_per_nullable_child :
    (∀ (A B : List RamenType) (f : RamenType) (w : Nat → Nat)
       (mask null_i start max : Nat),
       f.nullable = true →
       bitSet (byteOf w) mask (null_i + nullableCount A) = false →
       unserFields (A ++ f :: B) w mask null_i start max =
         ((unserFields A w mask null_i start max).1 ++ Value.Null ::
            (unserFields B w mask (null_i + nullableCount A + 1)
               (unserFields A w mask null_i start max).2 max).1,
          (unserFields B w mask (null_i + nullableCount A + 1)
             (unserFields A w mask null_i start max).2 max).2)) ∧
    unserialize recC7 (fun i => [5, 17, 300, 42].getD i 0) 0 8 true
      = (.Record [("a", some (.U8 17)), ("b", some (.U32 300)),
                  ("c", some .Null), ("d", some (.U8 42))], 4) := by
  constructor
  · intro A B f w mask null_i start max hnul hbit
    rw [unserFields_append A (f :: B) w mask null_i start max]
    simp only [unserFields, hnul, hbit, Bool.false_eq_true, if_false, if_true]
  · simp [unserialize, recC7, unserRecFields, bitSet, byteOf,
      RamenType.nullmaskWidth, roundUpWords, RamenType.nullable,
      (show ((3 : Fin 4) : Nat) = 3 from rfl),
      (by decide : Nat.land 5 1 = 1), (by decide : Nat.land 5 2 = 0),
      (by decide : Nat.land 5 4 = 4)]

/-- Witness for `nullmask_bit_per_nullable_child`: one non-nullable `U32`
before a nullable `U8` whose bit (bit 0, since the `U32` consumes none) is
clear in an all-zero mask. -/
theorem nullmask_bit_per_nullable_child_witness :
    unserFields ([RamenType.base false ValueType.U32Type] ++
        RamenType.base true ValueType.U8Type :: []) (fun _ => 0) 0 0 1 8 =
      ((unserFields [RamenType.base false ValueType.U32Type]
          (fun _ => 0) 0 0 1 8).1 ++ Value.Null ::
         (unserFields [] (fun _ => 0) 0
            (0 + nullableCount [RamenType.base false ValueType.U32Type] + 1)
            (unserFields [RamenType.base false ValueType.U32Type]
               (fun _ => 0) 0 0 1 8).2 8).1,
       (unserFields [] (fun _ => 0) 0
          (0 + nullableCount [RamenType.base false ValueType.U32Type] + 1)
          (unserFields [RamenType.base false ValueType.U32Type]
             (fun _ => 0) 0 0 1 8).2 8).2) :=
  nullmask_bit_per_nullable_child.1 [RamenType.base false ValueType.U32Type] []
    (RamenType.base true ValueType.U8Type) (fun _ => 0) 0 0 1 8 rfl
    (by simp [bitSet, byteOf, nullableCount, RamenType.nullable, land_zero])

lemma unserRecFields_length (fields : List (String × RamenType)) :
    ∀ (order : List Nat) (w : Nat → Nat) (mask null_i start max : Nat)
      (acc : List (String × Option Value)),
      ((unserRecFields fields order w mask null_i start max acc).1).length
        = acc.length := by
  intro order
  induction order with
  | nil =>
    intro w mask null_i start max acc
    simp [unserRecFields]
  | cons i rest ih =>
    intro w mask null_i start max acc
    simp only [unserRecFields]
    split_ifs with h1 h2 h3 <;> rw [ih] <;> simp [List.length_set]

lemma unserRecFields_not_mem (fields : List (String × RamenType)) :
    ∀ (order : List Nat) (w : Nat → Nat) (mask null_i start max : Nat)
      (acc : List (String × Option Value)) (j : Nat), j ∉ order →
      ((unserRecFields fields order w mask null_i start max acc).1)[j]?
        = acc[j]? := by
  intro order
  induction order with
  | nil =>
    intro w mask null_i start max acc j _
    simp [unserRecFields]
  | cons i rest ih =>
    intro w mask null_i start max acc j hj
    have hji : i ≠ j := fun h => hj (h ▸ List.mem_cons_self i rest)
    have hjr : j ∉ rest := fun h => hj (List.mem_cons_of_mem i h)
    simp only [unserRecFields]
    split_ifs with h1 h2 h3
    · rw [ih _ _ _ _ _ _ _ hjr, List.getElem?_set_ne hji]
    · rw [ih _ _ _ _ _ _ _ hjr, List.getElem?_set_ne hji]
    · rw [ih _ _ _ _ _ _ _ hjr, List.getElem?_set_ne hji]
    · rw [ih _ _ _ _ _ _ _ hjr]

lemma unserRecFields_assigned (fields : List (String × RamenType)) :
    ∀ (order : List Nat) (w : Nat → Nat) (mask null_i start max : Nat)
      (acc : List (String × Option Value)) (j : Nat)
      (hj : j < fields.length), j ∈ order → acc.length = fields.length →
      ∃ v, ((unserRecFields fields order w mask null_i start max acc).1)[j]?
        = some (fields[j].1, some v) := by
  intro order
  induction order with
  | nil =>
    intro w mask null_i start max acc j hj hmem hlen
    cases hmem
  | cons i rest ih =>
    intro w mask null_i start max acc j hj hmem hlen
    by_cases hjr : j ∈ rest
    · simp only [unserRecFields]
      split_ifs with h1 h2 h3
      · exact ih _ _ _ _ _ _ j hj hjr (by simp [List.length_set, hlen])
      · exact ih _ _ _ _ _ _ j hj hjr (by simp [List.length_set, hlen])
      · exact ih _ _ _ _ _ _ j hj hjr (by simp [List.length_set, hlen])
      · exact ih _ _ _ _ _ _ j hj hjr hlen
    · have hji : j = i := by
        rcases List.mem_cons.mp hmem with h | h
        · exact h
        · exact absurd h hjr
      subst hji
      simp only [unserRecFields]
      split_ifs with h1 h2
      · exact ⟨(unserialize (fields.get ⟨j, hj⟩).2 w start max false).1, by
          rw [unserRecFields_not_mem fields rest _ _ _ _ _ _ j hjr,
            List.getElem?_set_self (by omega)]
          rfl⟩
      · exact ⟨Value.Null, by
          rw [unserRecFields_not_mem fields rest _ _ _ _ _ _ j hjr,
            List.getElem?_set_self (by omega)]
          rfl⟩
      · exact ⟨(unserialize (fields.get ⟨j, hj⟩).2 w start max false).1, by
          rw [unserRecFields_not_mem fields rest _ _ _ _ _ _ j hjr,
            List.getElem?_set_self (by omega)]
          rfl⟩

lemma unserRecFields_full (fields : List (String × RamenType)) (order : List Nat)
    (w : Nat → Nat) (mask null_i start max : Nat)
    (hsurj : ∀ j, j < fields.length → j ∈ order) :
    ((unserRecFields fields order w mask null_i start max
        (List.replicate fields.length
          (("", none) : String × Option Value))).1).map Prod.fst
      = fields.map Prod.fst ∧
    ∀ q ∈ (unserRecFields fields order w mask null_i start max
        (List.replicate fields.length
          (("", none) : String × Option Value))).1,
      q.2.isSome = true := by
  have hlen1 : ((unserRecFields fields order w mask null_i start max
      (List.replicate fields.length
        (("", none) : String × Option Value))).1).length = fields.length := by
    rw [unserRecFields_length]
    simp
  constructor
  · apply List.ext_getElem?_iff.mpr
    intro j
    rw [List.getElem?_map, List.getElem?_map]
    by_cases hj : j < fields.length
    · obtain ⟨v, hv⟩ := unserRecFields_assigned fields order w mask null_i
        start max (List.replicate fields.length
          (("", none) : String × Option Value)) j hj (hsurj j hj) (by simp)
      rw [hv, List.getElem?_eq_getElem hj]
      rfl
    · rw [List.getElem?_eq_none_iff.mpr (by omega),
        List.getElem?_eq_none_iff.mpr (by omega)]
      rfl
  · intro q hq
    obtain ⟨j, hjlen, hget⟩ := List.getElem_of_mem hq
    have hjf : j < fields.length := by omega
    obtain ⟨v, hv⟩ := unserRecFields_assigned fields order w mask null_i
      start max (List.replicate fields.length
        (("", none) : String × Option Value)) j hjf (hsurj j hjf) (by simp)
    rw [List.getElem?_eq_getElem hjlen, hget] at hv
    have hq2 := Option.some_inj.mp hv
    simp [hq2]

/-- Two-field record decoded through `serOrder = [1, 0]` (claim C8's concrete
scenario): the first wire value lands in logical field 2 (`y`), the second in
logical field 1 (`x`). -/
def rec2 : RamenType :=
  .record false [("x", .base false .U32Type), ("y", .base false .U32Type)] [1, 0]

/-- Claim C8: when `unserialize` decodes a record schema, children are
consumed from the wire in `serOrder` but each decoded child is placed in the
output `Record` at its logical field index with the name from the schema, so
when `serOrder` covers every field the output field-name order equals the
schema's declared order and every field is assigned.  Concretely, with
`serOrder = [1, 0]` and wire words [10, 11], field `y` receives the first
wire word (10) and field `x` the second (11), listed in logical order. -/
theorem record_fields_logical_order :
    (∀ (nb : Bool) (fields : List (String × RamenType)) (order : List Nat)
       (w : Nat → Nat) (start max : Nat) (topLevel : Bool),
       (∀ j, j < fields.length → j ∈ order) →
       start + roundUpWords
         ((RamenType.nullmaskWidth (.record nb fields order) topLevel + 7) / 8)
         ≤ max →
       ∃ fv cursor,
         unserialize (.record nb fields order) w start max topLevel
           = (.Record fv, cursor) ∧
         fv.map Prod.fst = fields.map Prod.fst ∧
         ∀ q ∈ fv, q.2.isSome = true) ∧
    unserialize rec2 (fun i => 10 + i) 0 2 true
      = (.Record [("x", some (.U32 11)), ("y", some (.U32 10))], 2) := by
  constructor
  · intro nb fields order w start max tl hsurj hroom
    simp only [unserialize]
    rw [if_neg (by omega)]
    exact ⟨_, _, rfl,
      (unserRecFields_full fields order w _ _ _ _ hsurj).1,
      (unserRecFields_full fields order w _ _ _ _ hsurj).2⟩
  · simp [unserialize, rec2, unserRecFields, bitSet, byteOf,
      RamenType.nullmaskWidth, roundUpWords, RamenType.nullable]

/-- Witness for `record_fields_logical_order`: a one-field record with
`serOrder = [0]`. -/
theorem record_fields_logical_order_witness :
    ∃ fv cursor,
      unserialize (.record false [("x", .base false .U32Type)] [0])
          (fun _ => 7) 0 4 true
        = (.Record fv, cursor) ∧
      fv.map Prod.fst
        = [("x", RamenType.base false ValueType.U32Type)].map Prod.fst ∧
      ∀ q ∈ fv, q.2.isSome = true :=
  record_fields_logical_order.1 false [("x", .base false .U32Type)] [0]
    (fun _ => 7) 0 4 true (by decide) (by decide)
